import Mathlib

/-!
A shallow embedding of the signature-parsing and namespace-classification
pipeline implemented in `scripts/modules_generator/docs_scraper.py`, together
with theorems checking the behaviour that the design document claims for it.

Python strings are modelled as Lean `String`/`List Char` (the inputs of
interest are ASCII, and all the character classes used by the Python code —
`[A-Z]`, `[a-z]`, `\d`, `\w`, `\s` — are modelled at the ASCII level exactly
as the regular expressions write them).
-/

/-! ## Character classes and elementary string operations -/

/-- The regex class `[A-Z]` (ASCII uppercase). -/
def isUpChar (c : Char) : Bool := 65 ≤ c.toNat && c.toNat ≤ 90

/-- The regex class `[a-z]` (ASCII lowercase). -/
def isLowChar (c : Char) : Bool := 97 ≤ c.toNat && c.toNat ≤ 122

/-- The regex class `\d` (ASCII digits). -/
def isDigChar (c : Char) : Bool := 48 ≤ c.toNat && c.toNat ≤ 57

/-- The regex class `\w` restricted to ASCII: letters, digits and underscore. -/
def isWordChar (c : Char) : Bool :=
  isUpChar c || isLowChar c || isDigChar c || c == '_'

/-- The regex class `\s` on ASCII: space, tab, newline, carriage return,
vertical tab and form feed. -/
def isSpaceChar (c : Char) : Bool :=
  c == ' ' || c == '\t' || c == '\n' || c == '\r' || c == '\x0b' || c == '\x0c'

/-- Python `str.lower` on one ASCII character. -/
def lowerChar (c : Char) : Char :=
  if isUpChar c then Char.ofNat (c.toNat + 32) else c

/-- Python `str.lower` (ASCII fragment). -/
def lowerStr (s : String) : String := String.mk (s.toList.map lowerChar)

/-- Contiguous-sublist test: Python's substring operator `needle in hay`. -/
def listInfix (needle : List Char) : List Char → Bool
  | [] => needle.isEmpty
  | a :: rest => needle.isPrefixOf (a :: rest) || listInfix needle rest

/-- Python `needle in hay` on strings. -/
def isSubstr (needle hay : String) : Bool := listInfix needle.toList hay.toList

/-- Python `s.startswith(pre)`. -/
def strStarts (s pre : String) : Bool := pre.toList.isPrefixOf s.toList

/-- Python `s.endswith(suf)`. -/
def strEnds (s suf : String) : Bool :=
  suf.toList.reverse.isPrefixOf s.toList.reverse

/-- Python `s.split(sep)` for a one-character separator (non-collapsing: an
input with no separator yields a single piece, so the empty string yields
`[""]`). -/
def splitOnCharAux (sep : Char) : List Char → List (List Char)
  | [] => [[]]
  | c :: rest =>
    if c == sep then [] :: splitOnCharAux sep rest
    else
      match splitOnCharAux sep rest with
      | h :: t => (c :: h) :: t
      | [] => [[c]]

/-- Python `s.split(sep)` on strings, one-character separator. -/
def splitOnChar (sep : Char) (s : String) : List String :=
  (splitOnCharAux sep s.toList).map String.mk

/-- Worker for Python `str.replace`: replace every non-overlapping occurrence
of `old`, scanning left to right.  The `fuel` argument is a structural
termination budget; every step consumes at least one character, so a budget
of the input length computes the replacement in full. -/
def replaceAux (old new : List Char) : Nat → List Char → List Char
  | 0, l => l
  | fuel + 1, l =>
    match l with
    | [] => []
    | a :: rest =>
      if old ≠ [] ∧ old.isPrefixOf (a :: rest) then
        new ++ replaceAux old new fuel (List.drop (old.length - 1) rest)
      else
        a :: replaceAux old new fuel rest

/-- Python `str.replace old new` on character lists.  All call sites in the
embedded module pass a non-empty `old`; for `old = []` this definition
returns the list unchanged (Python's behaviour for an empty pattern differs,
but that case is unreachable from the embedded code). -/
def replaceList (old new l : List Char) : List Char :=
  replaceAux old new l.length l

/-- Python `str.replace` on strings. -/
def replaceStr (old new s : String) : String :=
  String.mk (replaceList old.toList new.toList s.toList)

/-! ## Module constants

`REAPER_TYPES` and `LUA_KEYWORDS` are imported by `docs_scraper.py` from the
`modules_generator` package `__init__`, whose source is not part of this
repository snapshot; they are modelled from the design document.  The
remaining constants are transcribed from `docs_scraper.py` itself. -/

/-- Modelled from the spec: `REAPER_TYPES` (package `__init__`, not among the
sources) is the set of recognized opaque handle types — "a source API type
representing a reference to an internal host object (e.g., a project, track,
or item handle), never a primitive value" — including the handle types named
by the relabeling table and the two sample-source types used by the
classifier. -/
def REAPER_TYPES : List String :=
  ["ReaProject", "MediaTrack", "MediaItem", "MediaItemTake", "TrackEnvelope",
   "PCM_source", "PCM_sink"]

/-- Modelled from the spec: `LUA_KEYWORDS` (package `__init__`, not among the
sources) is "the destination language's keyword set" — the reserved words of
Lua. -/
def LUA_KEYWORDS : List String :=
  ["and", "break", "do", "else", "elseif", "end", "false", "for", "function",
   "goto", "if", "in", "local", "nil", "not", "or", "repeat", "return",
   "then", "true", "until", "while"]

/-- `REAPER_NAMESPACES` from `docs_scraper.py`: namespace tokens grouped under
`Reaper`. -/
def REAPER_NAMESPACES : List String :=
  ["Audio", "Dock", "Help", "Loop", "Main", "Master", "Menu", "Resample",
   "Splash", "ThemeLayout", "TimeMap", "Undo"]

/-! ## Data model -/

/-- `ReaType` from `docs_scraper.py`: one argument, return value or constant.
The field `default_value_cache` models the private `_default_value` slot of
the Python dataclass. -/
structure ReaType where
  reascript_type : String
  name : Option String := none
  is_optional : Bool := false
  description : Option String := none
  is_pointer : Bool := false
  default_value_cache : Option String := none
deriving DecidableEq, Repr

/-- `ReaType.is_reaper_type`. -/
def ReaType.is_reaper_type (t : ReaType) : Bool :=
  REAPER_TYPES.contains t.reascript_type

/-- `ReaType.lua_type`. -/
def ReaType.lua_type (t : ReaType) : String :=
  if t.is_reaper_type then "userdata"
  else if t.reascript_type == "integer" || t.reascript_type == "double"
      || t.reascript_type == "float" then "number"
  else if t.reascript_type == "boolean" then "boolean"
  else if t.reascript_type == "string" || t.reascript_type == "str" then "string"
  else t.reascript_type

/-- The `default_value` property getter.  Reading is stateful in Python (it
fills the `_default_value` cache on first use), so it is modelled as a
state-passing function returning the value together with the updated
descriptor. -/
def ReaType.default_value_read (t : ReaType) : String × ReaType :=
  match t.default_value_cache with
  | some v => (v, t)
  | none =>
    let v :=
      if t.reascript_type == "boolean" then "false"
      else if t.reascript_type == "number" then "0"
      else if t.reascript_type == "string" then "\"\""
      else "nil"
    (v, { t with default_value_cache := some v })

/-- The `default_value` property setter. -/
def ReaType.default_value_set (t : ReaType) (v : String) : ReaType :=
  { t with default_value_cache := some v }

/-- `ReaFunc` from `docs_scraper.py`: one documented callable.  The Python
field `fn_name_space` is annotated `str` but is populated with `None` by
`get_fn_name_space` for namespace-less functions, hence `Option String`. -/
structure ReaFunc where
  signature : String
  reascript_name : String
  fn_name_space : Option String
  arguments : List ReaType
  return_values : List ReaType
  docs : Option String
  reawrap_name : Option String := none
  constants : Option (List ReaType) := none
deriving DecidableEq, Repr

/-! ## `to_snake`

`to_snake` applies two `re.sub` rewrites and then lowercases.  Each `re.sub`
is realised as a left-to-right scan inserting `'_'` at every match site; the
patterns `([A-Z]+)([A-Z][a-z])` and `([a-z\d])([A-Z])` match (scanning
non-overlapping, greedily) exactly at the character windows tested below. -/

/-- `re.sub(r"([A-Z]+)([A-Z][a-z])", r"\1_\2", s)`: an underscore is inserted
before the last uppercase letter of every uppercase run of length at least
two that is immediately followed by a lowercase letter. -/
def sub1 : List Char → List Char
  | a :: b :: c :: rest =>
    if isUpChar a && isUpChar b && isLowChar c then a :: '_' :: b :: c :: sub1 rest
    else a :: sub1 (b :: c :: rest)
  | l => l

/-- `re.sub(r"([a-z\d])([A-Z])", r"\1_\2", s)`: an underscore is inserted
between every lowercase-or-digit character and an immediately following
uppercase letter. -/
def sub2 : List Char → List Char
  | a :: b :: rest =>
    if (isLowChar a || isDigChar a) && isUpChar b then a :: '_' :: b :: sub2 rest
    else a :: sub2 (b :: rest)
  | l => l

/-- `to_snake` from `docs_scraper.py`. -/
def to_snake (s : String) : String :=
  String.mk ((sub2 (sub1 s.toList)).map lowerChar)

/-! ## Supporting lemmas for `to_snake` -/

theorem isUp_lowerChar (c : Char) : isUpChar (lowerChar c) = false := by
  unfold lowerChar
  by_cases h : isUpChar c = true
  · rw [if_pos h]
    simp only [isUpChar, Bool.and_eq_true, decide_eq_true_eq] at h
    obtain ⟨h1, h2⟩ := h
    generalize hgen : c.toNat = n at h1 h2 ⊢
    interval_cases n <;> decide
  · rw [if_neg h]
    simpa using h

theorem lowerChar_not_up (c : Char) (h : isUpChar c = false) : lowerChar c = c := by
  unfold lowerChar
  rw [if_neg (by simp [h])]

theorem sub1_id (l : List Char) (h : ∀ c ∈ l, isUpChar c = false) : sub1 l = l := by
  induction l using sub1.induct with
  | case1 a b c rest hcond ih =>
    exfalso
    have := h a (by simp)
    simp [this] at hcond
  | case2 a b c rest hcond ih =>
    rw [sub1, if_neg hcond]
    rw [ih (fun x hx => h x (by simp at hx ⊢; tauto))]
  | case3 l hl =>
    match l, hl with
    | [], _ => rfl
    | [a], _ => rfl
    | [a, b], _ => rfl
    | a :: b :: c :: rest, hl => exact absurd rfl (hl a b c rest)

theorem sub2_id (l : List Char) (h : ∀ c ∈ l, isUpChar c = false) : sub2 l = l := by
  induction l using sub2.induct with
  | case1 a b rest hcond ih =>
    exfalso
    have := h b (by simp)
    simp [this] at hcond
  | case2 a b rest hcond ih =>
    rw [sub2, if_neg hcond]
    rw [ih (fun x hx => h x (by simp at hx ⊢; tauto))]
  | case3 l hl =>
    match l, hl with
    | [], _ => rfl
    | [a], _ => rfl
    | a :: b :: rest, hl => exact absurd rfl (hl a b rest)

theorem map_lower_noUp (l : List Char) : ∀ c ∈ l.map lowerChar, isUpChar c = false := by
  intro c hc
  simp only [List.mem_map] at hc
  obtain ⟨x, _, rfl⟩ := hc
  exact isUp_lowerChar x

theorem map_lower_id (l : List Char) (h : ∀ c ∈ l, isUpChar c = false) :
    l.map lowerChar = l := by
  induction l with
  | nil => rfl
  | cons a t ih =>
    simp only [List.map_cons]
    rw [lowerChar_not_up a (h a (by simp)), ih (fun x hx => h x (by simp [hx]))]

/-- **C7.** The snake-casing transform `to_snake` is idempotent: its output
contains no ASCII uppercase letters, both rewrite passes are the identity on
uppercase-free strings, and lowercasing is the identity on uppercase-free
strings, so applying `to_snake` to an already-snake-cased string returns it
unchanged. -/
theorem to_snake_idempotent (s : String) : to_snake (to_snake s) = to_snake s := by
  unfold to_snake
  have hdata : (String.mk ((sub2 (sub1 s.toList)).map lowerChar)).toList
      = (sub2 (sub1 s.toList)).map lowerChar := rfl
  rw [hdata]
  have hno := map_lower_noUp (sub2 (sub1 s.toList))
  rw [sub1_id _ hno, sub2_id _ hno, map_lower_id _ hno]

/-! ## Signature parsing -/

/-- Prefix matcher for the pattern `\w+\s*\(\s*[^)]*\s*\)` used with
`re.match` (which anchors at the start of the fragment): one or more word
characters, optional whitespace, `'('`, any run of non-`')'` characters, and
a closing `')'`.  Because word characters, whitespace, `'('` and `')'` are
pairwise disjoint classes, the greedy scan below is exactly the regex. -/
def matchSig (l : List Char) : Bool :=
  let r2 := (l.dropWhile isWordChar).dropWhile isSpaceChar
  !(l.takeWhile isWordChar).isEmpty
    && (r2.head? == some '(')
    && (((r2.tail).dropWhile (fun c => c ≠ ')')).head? == some ')')

/-- `get_function_signature` from `docs_scraper.py`: return the first
fragment matching the signature pattern, or raise `ValueError`. -/
def get_function_signature (parts : List String) : Except String String :=
  match parts.find? (fun p => matchSig p.toList) with
  | some p => Except.ok p
  | none => Except.error ("Could not find function signature in " ++
      String.intercalate ", " parts)

theorem length_dropWhile_le (p : Char → Bool) (l : List Char) :
    (l.dropWhile p).length ≤ l.length := by
  induction l with
  | nil => simp [List.dropWhile]
  | cons a t ih =>
    rw [List.dropWhile]
    split
    · exact Nat.le_trans ih (by simp)
    · simp

/-- `get_arguments` from `docs_scraper.py`: locate the first match of
`\(([^)]*)\)` in the signature — the first `'('` followed (not necessarily
immediately) by a `')'` — and split the enclosed text on commas; raise
`ValueError` when the pattern is absent. -/
def get_arguments (signature : String) : Except String (List String) :=
  match (signature.toList.dropWhile (fun c => c ≠ '(')) with
  | '(' :: rest =>
    match rest.dropWhile (fun c => c ≠ ')') with
    | ')' :: _ =>
      Except.ok ((splitOnCharAux ',' (rest.takeWhile (fun c => c ≠ ')'))).map String.mk)
    | _ => Except.error ("Could not find arguments in " ++ signature)
  | _ => Except.error ("Could not find arguments in " ++ signature)

/-- Scanner for `re.search(r"\b\w+(?=\s*\()", signature)`.  `atBoundary`
records whether the current position is a word boundary (the scan starts at
one).  At a boundary word character the maximal word run is the only
candidate (`\w+` can only end where the following text is `\s*'('`, which is
impossible in the middle of the run), and no word boundary occurs inside a
run, so on failure the scan resumes after the current character with the
boundary flag recomputed. -/
def findNameAux (atBoundary : Bool) : List Char → Option (List Char)
  | [] => none
  | c :: rest =>
    if atBoundary && isWordChar c then
      if ((rest.dropWhile isWordChar).dropWhile isSpaceChar).head? == some '(' then
        some (c :: rest.takeWhile isWordChar)
      else findNameAux false rest
    else findNameAux (!(isWordChar c)) rest

/-- `get_function_name` from `docs_scraper.py`: return the text of the first
`\b\w+(?=\s*\()` match, or raise `ValueError`. -/
def get_function_name (signature : String) : Except String String :=
  match findNameAux true signature.toList with
  | some run => Except.ok (String.mk run)
  | none => Except.error ("Could not find function name in " ++ signature)

/-! ## Argument/return-value tokenizing -/

/-- `sanitize_name` from `docs_scraper.py`.  The Python function reads the
name candidate from `parts[1]` (returning `None` when fewer than two parts
are present), keyword-suffixes it, and applies the suffix/prefix edits; the
truthiness guard `if name:` is always taken in the `some` branch because the
parts are non-empty whitespace-split tokens. -/
def sanitize_name (parts : List String) : Option String :=
  match parts.get? 1 with
  | none => none
  | some p1 =>
    let name := to_snake p1
    let name := if LUA_KEYWORDS.contains name then name ++ "_" else name
    let name := replaceStr "." "" name
    let name :=
      if strEnds name "idx" && !(name == "idx") then replaceStr "idx" "_idx" name
      else if strEnds name "name" && !(name == "name") then replaceStr "name" "_name" name
      else if strEnds name "type" && !(name == "type") then replaceStr "type" "_type" name
      else if strEnds name "val" && !(name == "val") then replaceStr "val" "_val" name
      else if strEnds name "pos" && !(name == "pos") then replaceStr "pos" "_pos" name
      else if strStarts name "is" then replaceStr "is" "is_" name
      else if strStarts name "swing" && !(name == "swing") then replaceStr "swing" "swing_" name
      else if strStarts name "nudge" && !(name == "nudge") then replaceStr "nudge" "nudge_" name
      else if strStarts name "timesig" && !(name == "timesig") then replaceStr "timesig" "time_sig" name
      else if name == "guid_guid" then "guid"
      else name
    let name := if strStarts name "__" then replaceStr "__" "" name else name
    let name := if isSubstr "__" name then replaceStr "__" "_" name else name
    some name

/-- The local helper `get_type` of `iter_types_and_names`. -/
def get_type (t : String) : String :=
  if t == "MediaItem_Take" then "MediaItemTake" else t

/-- `iter_types_and_names` from `docs_scraper.py`.  The generator stops as
soon as it meets a falsy (empty) piece (`if not value: return`); a piece
whose whitespace split leaves no parts, or an `optional` piece with fewer
than three parts, hits an out-of-range index in Python, modelled as an
error. -/
def iter_types_and_names : List String → Except String (List ReaType)
  | [] => Except.ok []
  | value :: restPieces =>
    if value == "" then Except.ok []
    else
      let parts := (splitOnChar ' ' value).filter (fun p => p ≠ "")
      let name := sanitize_name parts
      match parts with
      | [] => Except.error "list index out of range"
      | p0 :: ptail =>
        if p0 == "optional" then
          match ptail with
          | _ :: p2 :: _ => do
            let ts ← iter_types_and_names restPieces
            Except.ok ({ reascript_type := p2, name := name, is_optional := true } :: ts)
          | _ => Except.error "list index out of range"
        else
          match ptail with
          | [] => do
            let ts ← iter_types_and_names restPieces
            Except.ok ({ reascript_type := get_type p0 } :: ts)
          | _ => do
            let ts ← iter_types_and_names restPieces
            Except.ok ({ reascript_type := get_type p0, name := name } :: ts)

/-! ## Namespace classification -/

/-- The `track_fx_exceptions` tuple of `group_functions_by_name_space`. -/
def track_fx_exceptions : List String := ["TrackFX_Delete", "TrackFX_GetCount"]

/-- The `take_fx_exceptions` tuple of `group_functions_by_name_space`. -/
def take_fx_exceptions : List String := ["TakeFX_Delete", "TakeFX_GetCount"]

/-- `l_func.arguments[0].reascript_type`, guarded by the truthiness test
`l_func.arguments and ...` in the Python conditions. -/
def firstArgType (f : ReaFunc) : Option String :=
  match f.arguments with
  | [] => none
  | a :: _ => some a.reascript_type

/-- The namespace decision of `group_functions_by_name_space` for a single
function: the body of its `for` loop, which depends only on the record
itself.  The final `else` returns `l_func.fn_name_space`, which the previous
branch guarantees is not `None` (the `getD` default is unreachable). -/
def classify (f : ReaFunc) : String :=
  if (f.fn_name_space == some "TrackFX" || isSubstr "TrackFX" f.reascript_name)
      && !(track_fx_exceptions.contains f.reascript_name) then "TrackFX"
  else if (f.fn_name_space == some "TakeFX" || isSubstr "TakeFX" f.reascript_name)
      && !(take_fx_exceptions.contains f.reascript_name) then "TakeFX"
  else if f.fn_name_space == some "PCM"
      || (match firstArgType f with
          | some t => t == "PCM_source" || t == "PCM_sink"
          | none => false) then "PCM"
  else if (match firstArgType f with
          | some t => REAPER_TYPES.contains t
          | none => false) then (firstArgType f).getD "Reaper"
  else if (match f.fn_name_space with
          | some s => REAPER_NAMESPACES.contains s
          | none => true) then "Reaper"
  else f.fn_name_space.getD "Reaper"

/-- Append `f` to the list of namespace `ns` in the table, creating the entry
at the end when absent — the Python `by_name_space` dict update (Python dicts
preserve insertion order). -/
def addToNS : List (String × List ReaFunc) → String → ReaFunc → List (String × List ReaFunc)
  | [], ns, f => [(ns, [f])]
  | e :: t, ns, f =>
    if e.1 == ns then (e.1, e.2 ++ [f]) :: t else e :: addToNS t ns f

/-- `group_functions_by_name_space` from `docs_scraper.py`. -/
def group_functions_by_name_space (functions : List ReaFunc) :
    List (String × List ReaFunc) :=
  functions.foldl (fun t f => addToNS t (classify f) f) []

/-- Read a namespace's function list out of a table (`[]` when absent). -/
def nsLookup (ns : String) (t : List (String × List ReaFunc)) : List ReaFunc :=
  match t.find? (fun e => e.1 == ns) with
  | some e => e.2
  | none => []

/-! ## Name transformer -/

/-- The `ns_special_cases` tuple of `generate_reawrap_name`. -/
def ns_special_cases : List String :=
  ["MIDI", "Undo", "Audio", "Menu", "Splash", "ThemeLayout"]

/-- The `functions_special_cases` per-namespace override table of
`generate_reawrap_name`, applied with fallback to the unchanged name. -/
def special_override (name_space rw : String) : String :=
  if name_space == "TakeFX" || name_space == "TrackFX" then
    if rw == "get_fxguid" then "get_guid"
    else if rw == "get_fx_name" then "get_name"
    else if rw == "get_count" then "get_fx_count"
    else rw
  else if name_space == "MediaItemTake" || name_space == "MediaTrack" then
    if rw == "get_count" then "get_fx_count"
    else if rw == "delete" then "delete_fx"
    else rw
  else if name_space == "MediaItem" then
    if rw == "add_take_to" then "add_take" else rw
  else if name_space == "ReaProject" then
    if rw == "get_project_name" then "get_name" else rw
  else rw

/-- `generate_reawrap_name` from `docs_scraper.py`.  Python truthiness of
`fn_name_space` (`None` and `""` are falsy) is made explicit; `None` is not a
member of the `ns_special_cases` tuple, so that test passes for a null
token. -/
def generate_reawrap_name (name_space : String) (fn_name_space : Option String)
    (reascript_name : String) : String :=
  let reascript_name :=
    if isSubstr "TimeMap2" reascript_name then
      replaceStr "TimeMap2" "TimeMap" reascript_name
    else reascript_name
  let fnTruthy : Bool :=
    match fn_name_space with
    | none => false
    | some s => !(s == "")
  let fnInName : Bool :=
    match fn_name_space with
    | none => false
    | some s => isSubstr s reascript_name
  let fnNotSpecial : Bool :=
    match fn_name_space with
    | none => true
    | some s => !(ns_special_cases.contains s)
  let reawrap_name :=
    if (fnTruthy && fnInName || isSubstr name_space reascript_name)
        && fnNotSpecial then
      let r :=
        if fnTruthy then replaceStr (fn_name_space.getD "") "" reascript_name
        else reascript_name
      replaceStr name_space "" r
    else reascript_name
  let reawrap_name :=
    if strStarts reawrap_name "__" then reawrap_name.drop 2
    else if strStarts reawrap_name "_" then reawrap_name.drop 1
    else reawrap_name
  let reawrap_name := to_snake reawrap_name
  let reawrap_name :=
    if LUA_KEYWORDS.contains reawrap_name then reawrap_name ++ "_"
    else reawrap_name
  special_override name_space reawrap_name

/-! ## Refinement and deduplication -/

/-- The refinement loop body for one namespace: assign each function its
target name and keep only the first function per target name.  (In Python
`refined[ns]` and `seen_funcs[ns]` are per-namespace, and dict keys are
unique, so each namespace entry is processed independently.) -/
def refineNS (name_space : String) : List ReaFunc → List String → List ReaFunc
  | [], _ => []
  | f :: rest, seen =>
    let rw := generate_reawrap_name name_space f.fn_name_space f.reascript_name
    if seen.contains rw then refineNS name_space rest seen
    else { f with reawrap_name := some rw } :: refineNS name_space rest (rw :: seen)

/-- Stable insertion into a list sorted by case-insensitive key. -/
def insertSortedNS (e : String × List ReaFunc) :
    List (String × List ReaFunc) → List (String × List ReaFunc)
  | [] => [e]
  | x :: t =>
    if lowerStr e.1 < lowerStr x.1 then e :: x :: t else x :: insertSortedNS e t

/-- `sorted(by_name_space.items(), key=lambda item: item[0].lower())`. -/
def sortNS (t : List (String × List ReaFunc)) : List (String × List ReaFunc) :=
  t.foldr insertSortedNS []

/-- `refine_functions` from `docs_scraper.py`. -/
def refine_functions (by_name_space : List (String × List ReaFunc)) :
    List (String × List ReaFunc) :=
  (sortNS by_name_space).map (fun e => (e.1, refineNS e.1 e.2 []))

/-- The test `func.docs and needle in func.docs.lower()` (an absent or empty
documentation string is falsy and contains nothing). -/
def docsHas (docs : Option String) (needle : String) : Bool :=
  match docs with
  | none => false
  | some d => isSubstr needle (lowerStr d)

/-- The argument rewrite applied by the `count_selected_tracks2` and
`get_selected_track2` overrides of `dedupe_functions`. -/
def renameWantmaster (args : List ReaType) : List ReaType :=
  args.map (fun a =>
    if a.name == some "wantmaster" then
      { a with name := some "want_master", is_optional := true }
    else a)

/-- The per-function body of `dedupe_functions`: `none` models `continue`
(the function is dropped), `some` returns the — possibly renamed — record
that then reaches the final `seen` test. -/
def applyOverrides (name_space : String) (f : ReaFunc) : Option ReaFunc :=
  if docsHas f.docs "deprecated" then none
  else if docsHas f.docs "discouraged" then none
  else if f.reawrap_name == some "count_selected_tracks" && name_space == "ReaProject" then
    none
  else if f.reawrap_name == some "count_selected_tracks2" && name_space == "ReaProject" then
    some { f with reawrap_name := some "count_selected_tracks",
                  arguments := renameWantmaster f.arguments }
  else if f.reawrap_name == some "add_project_marker" && name_space == "ReaProject" then
    none
  else if f.reawrap_name == some "add_project_marker2" && name_space == "ReaProject" then
    some { f with reawrap_name := some "add_project_marker" }
  else if f.reawrap_name == some "enum_project_markers2" && name_space == "ReaProject" then
    none
  else if f.reawrap_name == some "enum_project_markers3" && name_space == "ReaProject" then
    some { f with reawrap_name := some "enum_project_markers" }
  else if f.reawrap_name == some "get_play_position_ex" && name_space == "ReaProject" then
    some { f with reawrap_name := some "get_play_position_lat_comp" }
  else if f.reawrap_name == some "get_play_position2_ex" && name_space == "ReaProject" then
    some { f with reawrap_name := some "get_play_position" }
  else if f.reawrap_name == some "get_project_time_signature2" && name_space == "ReaProject" then
    some { f with reawrap_name := some "get_project_time_signature" }
  else if f.reawrap_name == some "get_selected_track" && name_space == "ReaProject" then
    none
  else if f.reawrap_name == some "get_selected_track2" && name_space == "ReaProject" then
    some { f with reawrap_name := some "get_selected_track",
                  arguments := renameWantmaster f.arguments }
  else some f

/-- The deduplication loop body for one namespace: apply the overrides, then
keep only the first function per (final) target name. -/
def dedupeNS (name_space : String) : List ReaFunc → List (Option String) → List ReaFunc
  | [], _ => []
  | f :: rest, seen =>
    match applyOverrides name_space f with
    | none => dedupeNS name_space rest seen
    | some f2 =>
      if seen.contains f2.reawrap_name then dedupeNS name_space rest seen
      else f2 :: dedupeNS name_space rest (f2.reawrap_name :: seen)

/-- `dedupe_functions` from `docs_scraper.py`. -/
def dedupe_functions (refined : List (String × List ReaFunc)) :
    List (String × List ReaFunc) :=
  refined.map (fun e => (e.1, dedupeNS e.1 e.2 []))

/-! ## Claim theorems -/

/-- **C1** (code evaluation at the failing input).  For the raw argument
string `"optional boolean wantmaster"` the tokenizer yields a descriptor with
`reascript_type = "wantmaster"` and `name = some "boolean"` (only
`is_optional = true` is as claimed): the code reads the type from `parts[2]`
and the name from `parts[1]`, so for an `optional` piece the token
immediately following `optional` becomes the *name* source and the token
after it the type — not type `boolean` / name `wantmaster` as the claim
states. -/
theorem c1_optional_piece_eval :
    iter_types_and_names ["optional boolean wantmaster"] =
      Except.ok [{ reascript_type := "wantmaster", name := some "boolean",
                   is_optional := true }] := by
  rfl

/-- The descriptor used to refute claim C5: source type `integer`. -/
def c5_integer_descriptor : ReaType := { reascript_type := "integer" }

/-- **C5** (counterexample).  A freshly created descriptor with source type
`integer` has derived runtime type `number`, yet reading its `default_value`
yields `"nil"`, not `"0"`: the getter branches on the raw `reascript_type`
(which is never the literal `"number"` for numeric ReaScript types), not on
the derived `lua_type`. -/
theorem c5_counterexample :
    c5_integer_descriptor.default_value_cache = none ∧
    c5_integer_descriptor.lua_type = "number" ∧
    ¬ ((c5_integer_descriptor.default_value_read).1 =
        (if c5_integer_descriptor.lua_type = "boolean" then "false"
         else if c5_integer_descriptor.lua_type = "number" then "0"
         else if c5_integer_descriptor.lua_type = "string" then "\"\""
         else "nil")) := by
  refine ⟨rfl, rfl, ?_⟩
  decide

/-- **C5** (amended).  For a descriptor whose default value has not been set,
reading `default_value` returns the literal keyed on the raw source type
name: `"false"` for `reascript_type = "boolean"`, `"0"` for the literal
`"number"`, the empty-string literal for `"string"`, and `"nil"` otherwise
(in particular for `integer`/`double`/`float`, whose derived runtime type is
`number`).  The value is cached on first read, so a second read returns the
same result and leaves the descriptor unchanged, and after an explicit set
the stored value is returned. -/
theorem c5_default_value_amended (t : ReaType) (h : t.default_value_cache = none) :
    ((t.reascript_type = "boolean" → (t.default_value_read).1 = "false")
      ∧ (t.reascript_type = "number" → (t.default_value_read).1 = "0")
      ∧ (t.reascript_type = "string" → (t.default_value_read).1 = "\"\"")
      ∧ (t.reascript_type ≠ "boolean" → t.reascript_type ≠ "number" →
          t.reascript_type ≠ "string" → (t.default_value_read).1 = "nil"))
    ∧ ((t.default_value_read).2.default_value_read = t.default_value_read)
    ∧ (∀ v, ((t.default_value_set v).default_value_read).1 = v) := by
  refine ⟨⟨?_, ?_, ?_, ?_⟩, ?_, ?_⟩
  · intro h1; simp [ReaType.default_value_read, h, h1]
  · intro h1; simp [ReaType.default_value_read, h, h1]
  · intro h1; simp [ReaType.default_value_read, h, h1]
  · intro h1 h2 h3; simp [ReaType.default_value_read, h, h1, h2, h3]
  · simp [ReaType.default_value_read, h]
  · intro v; simp [ReaType.default_value_set, ReaType.default_value_read]

/-- Concrete instance used to witness `c5_default_value_amended`. -/
theorem c5_default_value_amended_witness :
    ({ reascript_type := "boolean" } : ReaType).default_value_cache = none ∧
    ((({ reascript_type := "boolean" } : ReaType).reascript_type = "boolean" →
        (({ reascript_type := "boolean" } : ReaType).default_value_read).1 = "false")
      ∧ (({ reascript_type := "boolean" } : ReaType).reascript_type = "number" →
        (({ reascript_type := "boolean" } : ReaType).default_value_read).1 = "0")
      ∧ (({ reascript_type := "boolean" } : ReaType).reascript_type = "string" →
        (({ reascript_type := "boolean" } : ReaType).default_value_read).1 = "\"\"")
      ∧ (({ reascript_type := "boolean" } : ReaType).reascript_type ≠ "boolean" →
          ({ reascript_type := "boolean" } : ReaType).reascript_type ≠ "number" →
          ({ reascript_type := "boolean" } : ReaType).reascript_type ≠ "string" →
        (({ reascript_type := "boolean" } : ReaType).default_value_read).1 = "nil"))
    ∧ ((({ reascript_type := "boolean" } : ReaType).default_value_read).2.default_value_read =
        ({ reascript_type := "boolean" } : ReaType).default_value_read)
    ∧ (∀ v, ((({ reascript_type := "boolean" } : ReaType).default_value_set v).default_value_read).1 = v) :=
  ⟨rfl, c5_default_value_amended { reascript_type := "boolean" } rfl⟩

/-- **C3.**  A record named `TrackFX_GetCount` with namespace token `TrackFX`
and a first argument of type `MediaTrack` (a recognized opaque handle type)
is excluded from the `TrackFX` family by rule 1's exception list, is assigned
to namespace `MediaTrack` by the first-argument receiver-type rule, and the
name transformer maps it to target name `get_fx_count` through the curated
`MediaTrack` override of `get_count`. -/
theorem c3_trackfx_getcount (f : ReaFunc)
    (hname : f.reascript_name = "TrackFX_GetCount")
    (hns : f.fn_name_space = some "TrackFX")
    (harg : firstArgType f = some "MediaTrack")
    (hdocs : docsHas f.docs "deprecated" = false) :
    REAPER_TYPES.contains "MediaTrack" = true ∧
    classify f = "MediaTrack" ∧
    generate_reawrap_name "MediaTrack" f.fn_name_space f.reascript_name =
      "get_fx_count" := by
  refine ⟨by decide, ?_, by rw [hns, hname]; rfl⟩
  simp only [classify, hname, hns, harg]
  rfl

/-- Concrete record used to witness `c3_trackfx_getcount`. -/
def c3_input : ReaFunc :=
  { signature := "TrackFX_GetCount(MediaTrack track)"
    reascript_name := "TrackFX_GetCount"
    fn_name_space := some "TrackFX"
    arguments := [{ reascript_type := "MediaTrack", name := some "track" }]
    return_values := [{ reascript_type := "integer" }]
    docs := some "Get count of FX on a track." }

/-- Concrete instance used to witness `c3_trackfx_getcount`. -/
theorem c3_trackfx_getcount_witness :
    c3_input.reascript_name = "TrackFX_GetCount" ∧
    c3_input.fn_name_space = some "TrackFX" ∧
    firstArgType c3_input = some "MediaTrack" ∧
    docsHas c3_input.docs "deprecated" = false ∧
    (REAPER_TYPES.contains "MediaTrack" = true ∧
     classify c3_input = "MediaTrack" ∧
     generate_reawrap_name "MediaTrack" c3_input.fn_name_space
       c3_input.reascript_name = "get_fx_count") :=
  ⟨rfl, rfl, rfl, by decide, c3_trackfx_getcount c3_input rfl rfl rfl (by decide)⟩

/-- **C9.**  In namespace `ReaProject`, a refined list containing a record
with target name `enum_project_markers2` and one with
`enum_project_markers3` (both non-deprecated and non-discouraged) is deduped
to exactly the `...3` record, renamed `enum_project_markers`: the override
chain drops the `...2` variant (`continue`) and renames the `...3` variant
before the uniqueness check. -/
theorem c9_enum_project_markers (f2 f3 : ReaFunc)
    (h2n : f2.reawrap_name = some "enum_project_markers2")
    (h3n : f3.reawrap_name = some "enum_project_markers3")
    (h2a : docsHas f2.docs "deprecated" = false)
    (h2b : docsHas f2.docs "discouraged" = false)
    (h3a : docsHas f3.docs "deprecated" = false)
    (h3b : docsHas f3.docs "discouraged" = false) :
    dedupeNS "ReaProject" [f2, f3] [] =
      [{ f3 with reawrap_name := some "enum_project_markers" }] := by
  have e2 : applyOverrides "ReaProject" f2 = none := by
    simp [applyOverrides, h2n, h2a, h2b]
  have e3 : applyOverrides "ReaProject" f3 =
      some { f3 with reawrap_name := some "enum_project_markers" } := by
    simp [applyOverrides, h3n, h3a, h3b]
  simp [dedupeNS, e2, e3]

/-- Records used to witness `c9_enum_project_markers`. -/
def c9_f2 : ReaFunc :=
  { signature := ""
    reascript_name := "EnumProjectMarkers2"
    fn_name_space := none
    arguments := []
    return_values := []
    docs := some "Enumerate project markers."
    reawrap_name := some "enum_project_markers2" }

/-- Records used to witness `c9_enum_project_markers`. -/
def c9_f3 : ReaFunc :=
  { signature := ""
    reascript_name := "EnumProjectMarkers3"
    fn_name_space := none
    arguments := []
    return_values := []
    docs := some "Enumerate project markers with color."
    reawrap_name := some "enum_project_markers3" }

/-- Concrete instance used to witness `c9_enum_project_markers`. -/
theorem c9_enum_project_markers_witness :
    c9_f2.reawrap_name = some "enum_project_markers2" ∧
    c9_f3.reawrap_name = some "enum_project_markers3" ∧
    docsHas c9_f2.docs "deprecated" = false ∧
    docsHas c9_f2.docs "discouraged" = false ∧
    docsHas c9_f3.docs "deprecated" = false ∧
    docsHas c9_f3.docs "discouraged" = false ∧
    dedupeNS "ReaProject" [c9_f2, c9_f3] [] =
      [{ c9_f3 with reawrap_name := some "enum_project_markers" }] :=
  ⟨rfl, rfl, by decide, by decide, by decide, by decide,
   c9_enum_project_markers c9_f2 c9_f3 rfl rfl (by decide) (by decide)
     (by decide) (by decide)⟩

/-- **C10.**  The tokenizer stops at the first empty piece — no descriptor is
produced for it or for anything after it — so a signature with empty
parentheses (`name()`), for which `get_arguments` returns `[""]`, parses to
an empty argument list instead of raising. -/
theorem c10_empty_piece_terminates :
    (∀ l1 l2 : List String, "" ∉ l1 →
      iter_types_and_names (l1 ++ "" :: l2) = iter_types_and_names l1)
    ∧ get_arguments "name()" = Except.ok [""]
    ∧ iter_types_and_names [""] = Except.ok [] := by
  refine ⟨?_, rfl, rfl⟩
  intro l1 l2 h
  induction l1 with
  | nil => rfl
  | cons v tl ih =>
    have hv : v ≠ "" := fun he => h (by simp [he])
    have htl : "" ∉ tl := fun ht => h (by simp [ht])
    have hvb : (v == "") = false := beq_eq_false_iff_ne.mpr hv
    simp only [List.cons_append, iter_types_and_names, hvb, Bool.false_eq_true,
      if_false, List.append_eq]
    rw [ih htl]

/-- Concrete instance used to witness `c10_empty_piece_terminates`. -/
theorem c10_empty_piece_terminates_witness :
    iter_types_and_names (["integer count"] ++ "" :: ["boolean flag"]) =
      iter_types_and_names ["integer count"] :=
  c10_empty_piece_terminates.1 ["integer count"] ["boolean flag"] (by decide)

/-- A record surviving the override chain keeps its documentation and passed
both the deprecated and the discouraged guards. -/
theorem applyOverrides_docs (ns : String) (f g : ReaFunc)
    (h : applyOverrides ns f = some g) :
    g.docs = f.docs ∧ docsHas f.docs "deprecated" = false ∧
      docsHas f.docs "discouraged" = false := by
  unfold applyOverrides at h
  by_cases h1 : docsHas f.docs "deprecated" = true
  · rw [if_pos h1] at h; exact Option.noConfusion h
  rw [if_neg h1] at h
  by_cases h2 : docsHas f.docs "discouraged" = true
  · rw [if_pos h2] at h; exact Option.noConfusion h
  rw [if_neg h2] at h
  by_cases h3 : (f.reawrap_name == some "count_selected_tracks" && ns == "ReaProject") = true
  · rw [if_pos h3] at h; exact Option.noConfusion h
  rw [if_neg h3] at h
  by_cases h4 : (f.reawrap_name == some "count_selected_tracks2" && ns == "ReaProject") = true
  · rw [if_pos h4] at h
    obtain rfl := Option.some.inj h
    exact ⟨rfl, by simpa using h1, by simpa using h2⟩
  rw [if_neg h4] at h
  by_cases h5 : (f.reawrap_name == some "add_project_marker" && ns == "ReaProject") = true
  · rw [if_pos h5] at h; exact Option.noConfusion h
  rw [if_neg h5] at h
  by_cases h6 : (f.reawrap_name == some "add_project_marker2" && ns == "ReaProject") = true
  · rw [if_pos h6] at h
    obtain rfl := Option.some.inj h
    exact ⟨rfl, by simpa using h1, by simpa using h2⟩
  rw [if_neg h6] at h
  by_cases h7 : (f.reawrap_name == some "enum_project_markers2" && ns == "ReaProject") = true
  · rw [if_pos h7] at h; exact Option.noConfusion h
  rw [if_neg h7] at h
  by_cases h8 : (f.reawrap_name == some "enum_project_markers3" && ns == "ReaProject") = true
  · rw [if_pos h8] at h
    obtain rfl := Option.some.inj h
    exact ⟨rfl, by simpa using h1, by simpa using h2⟩
  rw [if_neg h8] at h
  by_cases h9 : (f.reawrap_name == some "get_play_position_ex" && ns == "ReaProject") = true
  · rw [if_pos h9] at h
    obtain rfl := Option.some.inj h
    exact ⟨rfl, by simpa using h1, by simpa using h2⟩
  rw [if_neg h9] at h
  by_cases h10 : (f.reawrap_name == some "get_play_position2_ex" && ns == "ReaProject") = true
  · rw [if_pos h10] at h
    obtain rfl := Option.some.inj h
    exact ⟨rfl, by simpa using h1, by simpa using h2⟩
  rw [if_neg h10] at h
  by_cases h11 : (f.reawrap_name == some "get_project_time_signature2" && ns == "ReaProject") = true
  · rw [if_pos h11] at h
    obtain rfl := Option.some.inj h
    exact ⟨rfl, by simpa using h1, by simpa using h2⟩
  rw [if_neg h11] at h
  by_cases h12 : (f.reawrap_name == some "get_selected_track" && ns == "ReaProject") = true
  · rw [if_pos h12] at h; exact Option.noConfusion h
  rw [if_neg h12] at h
  by_cases h13 : (f.reawrap_name == some "get_selected_track2" && ns == "ReaProject") = true
  · rw [if_pos h13] at h
    obtain rfl := Option.some.inj h
    exact ⟨rfl, by simpa using h1, by simpa using h2⟩
  rw [if_neg h13] at h
  obtain rfl := Option.some.inj h
  exact ⟨rfl, by simpa using h1, by simpa using h2⟩

/-- Every record in a deduped namespace list has non-deprecated,
non-discouraged documentation. -/
theorem dedupeNS_docs (ns : String) :
    ∀ (fns : List ReaFunc) (seen : List (Option String)) (f : ReaFunc),
      f ∈ dedupeNS ns fns seen →
      docsHas f.docs "deprecated" = false ∧
        docsHas f.docs "discouraged" = false := by
  intro fns
  induction fns with
  | nil =>
    intro seen f h
    simp [dedupeNS] at h
  | cons g rest ih =>
    intro seen f h
    rw [dedupeNS] at h
    cases hg : applyOverrides ns g with
    | none =>
      rw [hg] at h
      dsimp only at h
      exact ih seen f h
    | some g2 =>
      rw [hg] at h
      dsimp only at h
      by_cases hs : seen.contains g2.reawrap_name = true
      · rw [if_pos hs] at h
        exact ih seen f h
      · rw [if_neg hs] at h
        rcases List.mem_cons.mp h with he | hm
        · subst he
          obtain ⟨hd, h1, h2⟩ := applyOverrides_docs ns g f hg
          rw [hd]
          exact ⟨h1, h2⟩
        · exact ih _ f hm

/-- **C4.**  No record whose documentation contains the case-insensitive
substring `deprecated` or `discouraged` appears in any namespace list of the
table returned by `dedupe_functions` (documentation is never rewritten by
the dedup stage, so this excludes exactly the flagged input records). -/
theorem c4_deprecated_filtered
    (t : List (String × List ReaFunc)) (e : String × List ReaFunc)
    (f : ReaFunc) (he : e ∈ dedupe_functions t) (hf : f ∈ e.2) :
    docsHas f.docs "deprecated" = false ∧
      docsHas f.docs "discouraged" = false := by
  unfold dedupe_functions at he
  simp only [List.mem_map] at he
  obtain ⟨x, hx, rfl⟩ := he
  exact dedupeNS_docs x.1 x.2 [] f hf

/-- Concrete instance used to witness `c4_deprecated_filtered`. -/
theorem c4_deprecated_filtered_witness :
    (("ReaProject", dedupeNS "ReaProject" [c9_f3] []) ∈
        dedupe_functions [("ReaProject", [c9_f3])]) ∧
    ({ c9_f3 with reawrap_name := some "enum_project_markers" } ∈
        ("ReaProject", dedupeNS "ReaProject" [c9_f3] []).2) ∧
    (docsHas ({ c9_f3 with reawrap_name := some "enum_project_markers" } : ReaFunc).docs
        "deprecated" = false ∧
      docsHas ({ c9_f3 with reawrap_name := some "enum_project_markers" } : ReaFunc).docs
        "discouraged" = false) :=
  ⟨by decide, by decide,
   c4_deprecated_filtered [("ReaProject", [c9_f3])]
     ("ReaProject", dedupeNS "ReaProject" [c9_f3] [])
     { c9_f3 with reawrap_name := some "enum_project_markers" }
     (by decide) (by decide)⟩

/-- In a deduped namespace list the (final) target names are pairwise
distinct, and none of them was in the incoming `seen` set. -/
theorem dedupeNS_nodup (ns : String) :
    ∀ (fns : List ReaFunc) (seen : List (Option String)),
      ((dedupeNS ns fns seen).map (fun f => f.reawrap_name)).Nodup
      ∧ ∀ n ∈ (dedupeNS ns fns seen).map (fun f => f.reawrap_name), n ∉ seen := by
  intro fns
  induction fns with
  | nil => intro seen; simp [dedupeNS]
  | cons g rest ih =>
    intro seen
    rw [dedupeNS]
    cases hg : applyOverrides ns g with
    | none => exact ih seen
    | some g2 =>
      dsimp only
      by_cases hs : seen.contains g2.reawrap_name = true
      · rw [if_pos hs]; exact ih seen
      · rw [if_neg hs]
        obtain ⟨ihn, ihs⟩ := ih (g2.reawrap_name :: seen)
        refine ⟨?_, ?_⟩
        · simp only [List.map_cons, List.nodup_cons]
          exact ⟨fun hmem => (ihs _ hmem) (List.mem_cons_self _ _), ihn⟩
        · intro n hn
          rcases List.mem_cons.mp hn with he | hm
          · subst he
            exact fun hmem => hs (List.elem_iff.mpr hmem)
          · exact fun hmem => (ihs n hm) (List.mem_cons_of_mem _ hmem)

/-- In a refined namespace list the assigned target names are pairwise
distinct, and none of them was in the incoming `seen` set. -/
theorem refineNS_nodup (ns : String) :
    ∀ (fns : List ReaFunc) (seen : List String),
      ((refineNS ns fns seen).map (fun f => f.reawrap_name)).Nodup
      ∧ ∀ f ∈ refineNS ns fns seen, ∀ s, f.reawrap_name = some s → s ∉ seen := by
  intro fns
  induction fns with
  | nil => intro seen; simp [refineNS]
  | cons g rest ih =>
    intro seen
    rw [refineNS]
    by_cases hs :
        seen.contains (generate_reawrap_name ns g.fn_name_space g.reascript_name) = true
    · rw [if_pos hs]; exact ih seen
    · rw [if_neg hs]
      obtain ⟨ihn, ihs⟩ :=
        ih (generate_reawrap_name ns g.fn_name_space g.reascript_name :: seen)
      refine ⟨?_, ?_⟩
      · simp only [List.map_cons, List.nodup_cons]
        refine ⟨fun hmem => ?_, ihn⟩
        obtain ⟨f, hf, hfe⟩ := List.mem_map.mp hmem
        exact (ihs f hf _ hfe) (List.mem_cons_self _ _)
      · intro f hf s hse
        rcases List.mem_cons.mp hf with he | hm
        · subst he
          obtain rfl := Option.some.inj hse
          exact fun hmem => hs (List.elem_iff.mpr hmem)
        · exact fun hmem => (ihs f hm s hse) (List.mem_cons_of_mem _ hmem)

/-- **C2.**  In every namespace entry of the table returned by
`dedupe_functions` no two retained records share a target name, and the same
uniqueness holds for every namespace list produced by `refine_functions`. -/
theorem c2_target_name_unique (t : List (String × List ReaFunc))
    (e : String × List ReaFunc) :
    (e ∈ refine_functions t → (e.2.map (fun f => f.reawrap_name)).Nodup)
    ∧ (e ∈ dedupe_functions t → (e.2.map (fun f => f.reawrap_name)).Nodup) := by
  constructor
  · intro he
    unfold refine_functions at he
    simp only [List.mem_map] at he
    obtain ⟨x, hx, rfl⟩ := he
    exact (refineNS_nodup x.1 x.2 []).1
  · intro he
    unfold dedupe_functions at he
    simp only [List.mem_map] at he
    obtain ⟨x, hx, rfl⟩ := he
    exact (dedupeNS_nodup x.1 x.2 []).1

/-- Concrete instance used to witness `c2_target_name_unique`. -/
theorem c2_target_name_unique_witness :
    (("ReaProject", dedupeNS "ReaProject" [c9_f2, c9_f3] []) ∈
        dedupe_functions [("ReaProject", [c9_f2, c9_f3])]) ∧
    ((("ReaProject", dedupeNS "ReaProject" [c9_f2, c9_f3] []).2.map
        (fun f => f.reawrap_name)).Nodup) :=
  ⟨by decide,
   (c2_target_name_unique [("ReaProject", [c9_f2, c9_f3])]
     ("ReaProject", dedupeNS "ReaProject" [c9_f2, c9_f3] [])).2 (by decide)⟩

theorem nsLookup_cons (ns : String) (x : String × List ReaFunc)
    (l : List (String × List ReaFunc)) :
    nsLookup ns (x :: l) = if (x.1 == ns) = true then x.2 else nsLookup ns l := by
  by_cases h : (x.1 == ns) = true
  · rw [if_pos h]
    simp only [nsLookup, List.find?_cons, h]
  · rw [if_neg h]
    have h' : (x.1 == ns) = false := by simpa using h
    simp only [nsLookup, List.find?_cons, h']

theorem nsLookup_addToNS (ns nsNew : String) (f : ReaFunc) :
    ∀ t, nsLookup ns (addToNS t nsNew f) =
      if (nsNew == ns) = true then nsLookup ns t ++ [f] else nsLookup ns t := by
  intro t
  induction t with
  | nil =>
    by_cases h : (nsNew == ns) = true
    · rw [if_pos h]
      simp [addToNS, nsLookup, List.find?_cons, h]
    · rw [if_neg h]
      have h' : (nsNew == ns) = false := by simpa using h
      simp [addToNS, nsLookup, List.find?_cons, h']
  | cons e t ih =>
    rw [addToNS]
    by_cases he : (e.1 == nsNew) = true
    · rw [if_pos he]
      have heq : e.1 = nsNew := by simpa using he
      rw [nsLookup_cons, nsLookup_cons]
      by_cases h : (nsNew == ns) = true
      · have hens : (e.1 == ns) = true := by rw [heq]; exact h
        rw [if_pos h, if_pos hens, if_pos hens]
      · have hens : (e.1 == ns) = false := by
          rw [heq]; simpa using h
        rw [if_neg h]
        simp only [hens, Bool.false_eq_true, if_false]
    · rw [if_neg he]
      rw [nsLookup_cons, nsLookup_cons]
      by_cases hens : (e.1 == ns) = true
      · rw [if_pos hens, if_pos hens]
        have : (nsNew == ns) = false := by
          have h1 : e.1 = ns := by simpa using hens
          have h2 : ¬ e.1 = nsNew := by simpa using he
          have : ¬ nsNew = ns := fun hc => h2 (by rw [hc, h1])
          simpa using this
        rw [this]
        simp
      · have hens' : (e.1 == ns) = false := by simpa using hens
        simp only [hens', Bool.false_eq_true, if_false]
        exact ih

theorem nsLookup_group_aux (ns : String) :
    ∀ (fns : List ReaFunc) (t : List (String × List ReaFunc)),
      nsLookup ns (fns.foldl (fun acc f => addToNS acc (classify f) f) t)
        = nsLookup ns t ++ fns.filter (fun f => classify f == ns) := by
  intro fns
  induction fns with
  | nil => intro t; simp
  | cons f rest ih =>
    intro t
    simp only [List.foldl_cons, List.filter_cons]
    rw [ih, nsLookup_addToNS]
    by_cases h : (classify f == ns) = true
    · rw [if_pos h]
      simp only [h, if_true]
      simp
    · have h' : (classify f == ns) = false := by simpa using h
      rw [if_neg h]
      simp only [h', Bool.false_eq_true, if_false]

/-- **C6.**  Namespace classification is per-record and order-independent:
each namespace list produced by `group_functions_by_name_space` is exactly
the input filtered by the per-record decision `classify` — so records appear
within their namespace in first-seen input order — and for any permutation
of the input every record lands in the same namespace list. -/
theorem c6_classification_order_independent (l1 l2 : List ReaFunc) (ns : String) :
    nsLookup ns (group_functions_by_name_space l1)
      = l1.filter (fun f => classify f == ns)
    ∧ (l1.Perm l2 →
        ∀ f : ReaFunc,
          f ∈ nsLookup ns (group_functions_by_name_space l1)
            ↔ f ∈ nsLookup ns (group_functions_by_name_space l2)) := by
  have h1 : ∀ l : List ReaFunc,
      nsLookup ns (group_functions_by_name_space l)
        = l.filter (fun f => classify f == ns) := by
    intro l
    unfold group_functions_by_name_space
    have := nsLookup_group_aux ns l []
    simpa [nsLookup] using this
  refine ⟨h1 l1, fun hperm f => ?_⟩
  rw [h1 l1, h1 l2]
  exact (hperm.filter _).mem_iff

/-- Concrete instance used to witness `c6_classification_order_independent`. -/
theorem c6_classification_order_independent_witness :
    ([c3_input, c9_f3].Perm [c9_f3, c3_input]) ∧
    (∀ f : ReaFunc,
      f ∈ nsLookup "MediaTrack" (group_functions_by_name_space [c3_input, c9_f3])
        ↔ f ∈ nsLookup "MediaTrack" (group_functions_by_name_space [c9_f3, c3_input])) :=
  ⟨List.Perm.swap _ _ _,
   (c6_classification_order_independent [c3_input, c9_f3] [c9_f3, c3_input]
     "MediaTrack").2 (List.Perm.swap _ _ _)⟩


theorem space_not_word (c : Char) (h : isSpaceChar c = true) : isWordChar c = false := by
  simp only [isSpaceChar, Bool.or_eq_true, beq_iff_eq] at h
  rcases h with ((((rfl | rfl) | rfl) | rfl) | rfl) | rfl <;> decide

theorem word_not_space (c : Char) (h : isWordChar c = true) : isSpaceChar c = false := by
  by_cases hs : isSpaceChar c = true
  · rw [space_not_word c hs] at h
    exact absurd h (by simp)
  · simpa using hs

theorem takeWhile_append_all (p : Char → Bool) (w r : List Char)
    (hw : ∀ c ∈ w, p c = true)
    (hr : ∀ d, r.head? = some d → p d = false) :
    (w ++ r).takeWhile p = w ∧ (w ++ r).dropWhile p = r := by
  induction w with
  | nil =>
    simp only [List.nil_append]
    cases r with
    | nil => simp
    | cons d r' =>
      have hd := hr d rfl
      simp [List.takeWhile_cons, List.dropWhile_cons, hd]
  | cons a w' ih =>
    have ha := hw a (by simp)
    have ihh := ih (fun c hc => hw c (by simp [hc]))
    simp [List.takeWhile_cons, List.dropWhile_cons, ha, ihh.1, ihh.2]

/-- The declarative reading of the signature pattern: a non-empty
word-character run, then whitespace, an opening parenthesis, a run free of
closing parentheses, and a closing parenthesis. -/
def SigShape (l : List Char) : Prop :=
  ∃ w sp inner rest,
    l = w ++ sp ++ '(' :: (inner ++ ')' :: rest)
    ∧ w ≠ []
    ∧ (∀ c ∈ w, isWordChar c = true)
    ∧ (∀ c ∈ sp, isSpaceChar c = true)
    ∧ (∀ c ∈ inner, c ≠ ')')

theorem matchSig_iff (l : List Char) : matchSig l = true ↔ SigShape l := by
  constructor
  · intro h
    simp only [matchSig, Bool.and_eq_true, Bool.not_eq_true', beq_iff_eq] at h
    obtain ⟨⟨h1, h2⟩, h3⟩ := h
    rcases hr2 : (l.dropWhile isWordChar).dropWhile isSpaceChar with _ | ⟨e, r3⟩
    · rw [hr2] at h2; exact absurd h2 (by simp)
    rw [hr2] at h2 h3
    simp only [List.head?_cons, Option.some.injEq] at h2
    subst h2
    simp only [List.tail_cons] at h3
    rcases hr3 : r3.dropWhile (fun c => c ≠ ')') with _ | ⟨e2, tail⟩
    · rw [hr3] at h3; exact absurd h3 (by simp)
    rw [hr3] at h3
    simp only [List.head?_cons, Option.some.injEq] at h3
    subst h3
    have e2 : l.dropWhile isWordChar =
        (l.dropWhile isWordChar).takeWhile isSpaceChar ++ ('(' :: r3) := by
      conv_lhs =>
        rw [← List.takeWhile_append_dropWhile (p := isSpaceChar)
          (l := l.dropWhile isWordChar)]
      rw [hr2]
    have e3 : r3 = r3.takeWhile (fun c => c ≠ ')') ++ (')' :: tail) := by
      conv_lhs =>
        rw [← List.takeWhile_append_dropWhile (p := fun c => decide (c ≠ ')'))
          (l := r3)]
      rw [hr3]
    refine ⟨l.takeWhile isWordChar, (l.dropWhile isWordChar).takeWhile isSpaceChar,
      r3.takeWhile (fun c => c ≠ ')'), tail, ?_, ?_, ?_, ?_, ?_⟩
    · rw [List.append_assoc]
      calc l = l.takeWhile isWordChar ++ l.dropWhile isWordChar :=
            (List.takeWhile_append_dropWhile _ _).symm
        _ = l.takeWhile isWordChar ++
              ((l.dropWhile isWordChar).takeWhile isSpaceChar ++ ('(' :: r3)) :=
            congrArg (fun x => l.takeWhile isWordChar ++ x) e2
        _ = l.takeWhile isWordChar ++
              ((l.dropWhile isWordChar).takeWhile isSpaceChar ++
                ('(' :: (r3.takeWhile (fun c => c ≠ ')') ++ ')' :: tail))) :=
            congrArg (fun x => l.takeWhile isWordChar ++
              ((l.dropWhile isWordChar).takeWhile isSpaceChar ++ ('(' :: x))) e3
    · intro hnil
      rw [hnil] at h1
      simp at h1
    · intro c hc
      exact List.mem_takeWhile_imp hc
    · intro c hc
      exact List.mem_takeWhile_imp hc
    · intro c hc
      simpa using List.mem_takeWhile_imp hc
  · rintro ⟨w, sp, inner, rest, heq, hwne, hword, hspace, hinner⟩
    subst heq
    have hhead1 : ∀ d, (sp ++ '(' :: (inner ++ ')' :: rest)).head? = some d →
        isWordChar d = false := by
      intro d hd
      cases sp with
      | nil =>
        simp only [List.nil_append, List.head?_cons, Option.some.injEq] at hd
        subst hd; decide
      | cons s sp' =>
        simp only [List.cons_append, List.head?_cons, Option.some.injEq] at hd
        subst hd
        exact space_not_word s (hspace s (by simp))
    have h1 := takeWhile_append_all isWordChar w (sp ++ '(' :: (inner ++ ')' :: rest))
      hword hhead1
    have hhead2 : ∀ d, (('(' : Char) :: (inner ++ ')' :: rest)).head? = some d →
        isSpaceChar d = false := by
      intro d hd
      simp only [List.head?_cons, Option.some.injEq] at hd
      subst hd; decide
    have h2 := takeWhile_append_all isSpaceChar sp ('(' :: (inner ++ ')' :: rest))
      hspace hhead2
    have hhead3 : ∀ d, ((')' : Char) :: rest).head? = some d →
        (fun c => decide (c ≠ ')')) d = false := by
      intro d hd
      simp only [List.head?_cons, Option.some.injEq] at hd
      subst hd; simp
    have h3 := takeWhile_append_all (fun c => c ≠ ')') inner (')' :: rest)
      (fun c hc => by simpa using hinner c hc) hhead3
    have hemp : w.isEmpty = false := by
      cases w
      · exact absurd rfl hwne
      · rfl
    rw [List.append_assoc]
    simp only [matchSig]
    rw [h1.1, h1.2, h2.2]
    simp only [hemp, Bool.not_false, List.head?_cons, List.tail_cons, h3.2,
      beq_self_eq_true, Bool.and_self, Bool.true_and, Bool.and_true]

/-- The declarative reading of the function-name pattern searched anywhere in
the signature: at a word boundary (start of string or after a non-word
character), a non-empty word-character run followed by whitespace and an
opening parenthesis. -/
def NameShape (l : List Char) : Prop :=
  ∃ pre w sp rest,
    l = pre ++ w ++ sp ++ '(' :: rest
    ∧ w ≠ []
    ∧ (∀ c ∈ w, isWordChar c = true)
    ∧ (∀ c ∈ sp, isSpaceChar c = true)
    ∧ (∀ d, pre.getLast? = some d → isWordChar d = false)

/-- A single word character followed (after whitespace) by `'('`, anywhere in
the list; equivalent to `NameShape` but shaped for the scanner induction. -/
def AltCand (l : List Char) : Prop :=
  ∃ pre c rest, l = pre ++ c :: rest ∧ isWordChar c = true
    ∧ (rest.dropWhile isSpaceChar).head? = some '('

theorem altCand_cons (x : Char) {l : List Char} (h : AltCand l) : AltCand (x :: l) := by
  obtain ⟨pre, c, rest, heq, hw, hafter⟩ := h
  exact ⟨x :: pre, c, rest, by rw [heq]; rfl, hw, hafter⟩

theorem altCand_of_run (l : List Char) :
    ∀ c, isWordChar c = true →
      ((l.dropWhile isWordChar).dropWhile isSpaceChar).head? = some '(' →
      AltCand (c :: l) := by
  induction l with
  | nil =>
    intro c hc h
    simp [List.dropWhile] at h
  | cons d r ih =>
    intro c hc h
    by_cases hd : isWordChar d = true
    · rw [List.dropWhile_cons, if_pos hd] at h
      exact altCand_cons c (ih d hd h)
    · rw [List.dropWhile_cons, if_neg (by simp [hd])] at h
      exact ⟨[], c, d :: r, rfl, hc, h⟩

theorem altCand_of_findName :
    ∀ (l : List Char) (b : Bool) (r : List Char),
      findNameAux b l = some r → AltCand l := by
  intro l
  induction l with
  | nil => intro b r h; simp [findNameAux] at h
  | cons c rest ih =>
    intro b r h
    simp only [findNameAux] at h
    by_cases h1 : (b && isWordChar c) = true
    · rw [if_pos h1] at h
      by_cases h2 :
          (((rest.dropWhile isWordChar).dropWhile isSpaceChar).head? == some '(') = true
      · have hw : isWordChar c = true := by
          simp only [Bool.and_eq_true] at h1
          exact h1.2
        exact altCand_of_run rest c hw (by simpa using h2)
      · rw [if_neg h2] at h
        exact altCand_cons c (ih false r h)
    · rw [if_neg h1] at h
      exact altCand_cons c (ih _ r h)

/-- If the head word run of `rest` does not lead (after whitespace) to `'('`
then neither does `rest` itself once whitespace is skipped, unless `rest`
starts with a word character that dead-ends — the two hypotheses are
contradictory. -/
theorem no_head_cand (rest : List Char)
    (hinv : ((rest.dropWhile isWordChar).dropWhile isSpaceChar).head? ≠ some '(')
    (hafter : (rest.dropWhile isSpaceChar).head? = some '(') : False := by
  cases rest with
  | nil => simp [List.dropWhile] at hafter
  | cons d r' =>
    by_cases hd : isWordChar d = true
    · have hds : isSpaceChar d = false := word_not_space d hd
      rw [List.dropWhile_cons, if_neg (by simp [hds])] at hafter
      simp only [List.head?_cons, Option.some.injEq] at hafter
      subst hafter
      exact absurd hd (by decide)
    · rw [List.dropWhile_cons, if_neg (by simp [hd])] at hinv
      exact hinv hafter

theorem findName_of_alt :
    ∀ (l : List Char) (b : Bool), AltCand l →
      (b = false →
        ((l.dropWhile isWordChar).dropWhile isSpaceChar).head? ≠ some '(') →
      ∃ r, findNameAux b l = some r := by
  intro l
  induction l with
  | nil =>
    intro b halt _
    obtain ⟨pre, c, rest, heq, _, _⟩ := halt
    exact absurd heq (by simp)
  | cons x rest ih =>
    intro b halt hinv
    simp only [findNameAux]
    by_cases h1 : (b && isWordChar x) = true
    · rw [if_pos h1]
      by_cases h2 :
          (((rest.dropWhile isWordChar).dropWhile isSpaceChar).head? == some '(') = true
      · rw [if_pos h2]
        exact ⟨_, rfl⟩
      · rw [if_neg h2]
        apply ih false ?_ (fun _ => by simpa using h2)
        obtain ⟨pre, c, crest, heq, hw, hafter⟩ := halt
        cases pre with
        | nil =>
          simp only [List.nil_append, List.cons.injEq] at heq
          obtain ⟨rfl, rfl⟩ := heq
          exact (no_head_cand rest (by simpa using h2) hafter).elim
        | cons p ps =>
          simp only [List.cons_append, List.cons.injEq] at heq
          exact ⟨ps, c, crest, heq.2, hw, hafter⟩
    · rw [if_neg h1]
      apply ih (!(isWordChar x)) ?_ ?_
      · obtain ⟨pre, c, crest, heq, hw, hafter⟩ := halt
        cases pre with
        | nil =>
          simp only [List.nil_append, List.cons.injEq] at heq
          obtain ⟨rfl, rfl⟩ := heq
          have hb : b = false := by
            cases b
            · rfl
            · exact absurd (by simp [hw]) h1
          have hinv' := hinv hb
          rw [List.dropWhile_cons, if_pos hw] at hinv'
          exact (no_head_cand rest hinv' hafter).elim
        | cons p ps =>
          simp only [List.cons_append, List.cons.injEq] at heq
          exact ⟨ps, c, crest, heq.2, hw, hafter⟩
      · intro hflag
        have hwx : isWordChar x = true := by simpa using hflag
        have hb : b = false := by
          cases b
          · rfl
          · exact absurd (by simp [hwx]) h1
        have hinv' := hinv hb
        rw [List.dropWhile_cons, if_pos hwx] at hinv'
        exact hinv'

theorem nameShape_build :
    ∀ (pre w sp rest2 : List Char), w ≠ [] →
      (∀ c ∈ w, isWordChar c = true) → (∀ c ∈ sp, isSpaceChar c = true) →
      NameShape (pre ++ w ++ sp ++ '(' :: rest2) := by
  intro pre
  induction pre using List.reverseRecOn with
  | nil =>
    intro w sp rest2 hw hword hsp
    exact ⟨[], w, sp, rest2, rfl, hw, hword, hsp, by simp⟩
  | append_singleton ps d ih =>
    intro w sp rest2 hw hword hsp
    by_cases hd : isWordChar d = true
    · have := ih (d :: w) sp rest2 (by simp)
        (fun c hc => by
          rcases List.mem_cons.mp hc with rfl | hm
          · exact hd
          · exact hword c hm) hsp
      have harr : ps ++ (d :: w) ++ sp ++ '(' :: rest2
          = (ps ++ [d]) ++ w ++ sp ++ '(' :: rest2 := by
        simp [List.append_assoc]
      rwa [harr] at this
    · refine ⟨ps ++ [d], w, sp, rest2, rfl, hw, hword, hsp, ?_⟩
      intro e he
      rw [List.getLast?_concat] at he
      obtain rfl := Option.some.inj he
      simpa using hd

theorem altCand_iff_nameShape (l : List Char) : AltCand l ↔ NameShape l := by
  constructor
  · rintro ⟨pre, c, rest, heq, hw, hafter⟩
    subst heq
    rcases hd : rest.dropWhile isSpaceChar with _ | ⟨e, tail⟩
    · rw [hd] at hafter
      simp at hafter
    rw [hd] at hafter
    simp only [List.head?_cons, Option.some.injEq] at hafter
    subst hafter
    have hsplit : rest = rest.takeWhile isSpaceChar ++ '(' :: tail := by
      conv_lhs =>
        rw [← List.takeWhile_append_dropWhile (p := isSpaceChar) (l := rest)]
      rw [hd]
    have := nameShape_build pre [c] (rest.takeWhile isSpaceChar) tail
      (by simp) (by intro x hx; rcases List.mem_cons.mp hx with rfl | hm
                    · exact hw
                    · simp at hm)
      (fun x hx => List.mem_takeWhile_imp hx)
    have harr : pre ++ [c] ++ rest.takeWhile isSpaceChar ++ '(' :: tail
        = pre ++ c :: (rest.takeWhile isSpaceChar ++ '(' :: tail) := by
      simp [List.append_assoc]
    rw [harr] at this
    rwa [← hsplit] at this
  · rintro ⟨pre, w, sp, rest, heq, hwne, hword, hspace, hbound⟩
    subst heq
    rcases List.eq_nil_or_concat w with rfl | ⟨winit, clast, rfl⟩
    · exact absurd rfl hwne
    have hdw : ((sp ++ '(' :: rest).dropWhile isSpaceChar).head? = some '(' := by
      have h2 := takeWhile_append_all isSpaceChar sp ('(' :: rest) hspace ?_
      · rw [h2.2]
        simp
      · intro d hd
        simp only [List.head?_cons, Option.some.injEq] at hd
        subst hd; decide
    refine ⟨pre ++ winit, clast, sp ++ '(' :: rest, ?_, ?_, hdw⟩
    · simp [List.concat_eq_append, List.append_assoc]
    · exact hword clast (by simp [List.concat_eq_append])

theorem findName_none_iff (l : List Char) :
    findNameAux true l = none ↔ ¬ NameShape l := by
  constructor
  · intro h hns
    obtain halt := (altCand_iff_nameShape l).mpr hns
    obtain ⟨r, hr⟩ := findName_of_alt l true halt (fun hb => absurd hb (by simp))
    rw [h] at hr
    exact Option.noConfusion hr
  · intro h
    cases hf : findNameAux true l with
    | none => rfl
    | some r =>
      exact absurd ((altCand_iff_nameShape l).mp (altCand_of_findName l true r hf)) h

/-- **C8.**  `get_function_signature` fails (with a `ValueError` naming the
fragments) exactly when no fragment matches the anchored
name-parentheses-arguments pattern, and `get_function_name` fails exactly
when the signature holds no word-boundary name followed by `\s*(`; for
top-level function entries these errors propagate (the embedded functions
return them, they are not swallowed). -/
theorem c8_parse_failures :
    (∀ parts : List String,
      (∃ e, get_function_signature parts = Except.error e)
        ↔ ∀ p ∈ parts, ¬ SigShape p.toList)
    ∧ (∀ s : String,
      (∃ e, get_function_name s = Except.error e) ↔ ¬ NameShape s.toList) := by
  constructor
  · intro parts
    constructor
    · rintro ⟨e, he⟩ p hp hsig
      unfold get_function_signature at he
      cases hf : parts.find? (fun p => matchSig p.toList) with
      | some q =>
        rw [hf] at he
        exact Except.noConfusion he
      | none =>
        exact (List.find?_eq_none.mp hf p hp) ((matchSig_iff _).mpr hsig)
    · intro h
      cases hf : parts.find? (fun p => matchSig p.toList) with
      | some q =>
        have hq : matchSig q.toList = true := by
          have := List.find?_some hf
          simpa using this
        exact absurd ((matchSig_iff _).mp hq) (h q (List.mem_of_find?_eq_some hf))
      | none =>
        refine ⟨"Could not find function signature in " ++
          String.intercalate ", " parts, ?_⟩
        unfold get_function_signature
        rw [hf]
  · intro s
    unfold get_function_name
    constructor
    · rintro ⟨e, he⟩
      cases hf : findNameAux true s.toList with
      | some r =>
        rw [hf] at he
        exact Except.noConfusion he
      | none => exact (findName_none_iff _).mp hf
    · intro h
      cases hf : findNameAux true s.toList with
      | some r =>
        exact absurd
          ((altCand_iff_nameShape _).mp (altCand_of_findName _ true r hf)) h
      | none =>
        exact ⟨_, rfl⟩

/-- Concrete instance used to witness `c8_parse_failures`. -/
theorem c8_parse_failures_witness :
    (∃ e, get_function_signature ["boolean retval", "no signature"] = Except.error e)
      ↔ ∀ p ∈ ["boolean retval", "no signature"], ¬ SigShape p.toList :=
  c8_parse_failures.1 ["boolean retval", "no signature"]
